import Mathlib

/-!
# ZOO-Project Node.js bridge: `service_internal_nodejs.cc`

A shallow embedding of `zoo-kernel/service_internal_nodejs.cc` and theorems about it.

* C strings and value buffers are lists of bytes (`Nat`); the terminating zero
  byte is not stored.
* A JavaScript string is the byte sequence handed to the engine; the transcoding
  from UTF-8 that the engine applies is outside the model.
* A JavaScript object is the list of its properties; only membership and lookup
  are used, never the enumeration order.
* A JavaScript array is a list of slots, `none` being a hole.
-/

namespace Zoo

/-! ## C strings -/

/-- One byte of a C string. -/
abbrev Byte := Nat

/-- A C string or a byte buffer, without its terminating zero byte. -/
abbrev CString := List Byte

/-- The bytes of a string literal (one byte per character; used with ASCII text). -/
def bytes (s : String) : CString := s.toList.map Char.toNat

/-- The C library `tolower` in the "C" locale: only `A`..`Z` are changed. -/
def tolower (c : Byte) : Byte := if 65 ≤ c ∧ c ≤ 90 then c + 32 else c

/-- The C library `strncasecmp`: compares at most `n` bytes ignoring ASCII case and
returns the difference at the first position where the strings differ (the end of a
list is the terminating zero byte), or 0. -/
def strncasecmp : CString → CString → Nat → Int
  | _, _, 0 => 0
  | [], [], _ + 1 => 0
  | [], b :: _, _ + 1 => 0 - (tolower b : Int)
  | a :: _, [], _ + 1 => (tolower a : Int)
  | a :: as, b :: bs, n + 1 =>
    if tolower a = tolower b then strncasecmp as bs n else (tolower a : Int) - (tolower b : Int)

/-- The C library `strlen`. -/
def strlen (s : CString) : Nat := s.length

/-- The bytes of a buffer read as a zero-terminated string: everything before the
first zero byte. -/
def cstr (buf : CString) : CString := buf.takeWhile (fun b => b != 0)

/-- The C library `isspace` in the "C" locale. -/
def isspace (c : Byte) : Bool := c == 32 || (9 ≤ c && c ≤ 13)

/-- The C library `isdigit`. -/
def isdigit (c : Byte) : Bool := 48 ≤ c && c ≤ 57

/-- The value of the leading run of decimal digits, accumulated from `acc`. -/
def digitsValue : CString → Nat → Nat
  | [], acc => acc
  | c :: cs, acc => if isdigit c then digitsValue cs (acc * 10 + (c - 48)) else acc

/-- Conversion of a `long` to `int`: the low 32 bits, read as two's complement. -/
def toInt32 (z : Int) : Int :=
  let r := z % 4294967296
  if r < 2147483648 then r else r - 4294967296

/-- The result of `strtol` clamped to the range of a 64-bit `long`. -/
def clampLong (z : Int) : Int :=
  if z < -9223372036854775808 then -9223372036854775808
  else if 9223372036854775807 < z then 9223372036854775807 else z

/-- The C library `atoi`, which is `(int) strtol(s, NULL, 10)`: leading white space is
skipped, an optional sign is read, then the leading decimal digits; text with no
leading number gives 0. Inside the range of `int` this is the value written; outside
it the result is the one of glibc (clamped to `long`, then truncated to `int`). -/
def atoi (s : CString) : Int :=
  match s.dropWhile isspace with
  | [] => 0
  | c :: cs =>
    if c = 45 then toInt32 (clampLong (0 - (digitsValue cs 0 : Int)))
    else if c = 43 then toInt32 (clampLong (digitsValue cs 0 : Int))
    else toInt32 (clampLong (digitsValue (c :: cs) 0 : Int))

/-! ## Outcomes of a call -/

/-- How a call of the bridge code ends. The code has no error return of its own: a
call returns, or dereferences a null pointer, or leaves a JavaScript exception
pending because the engine refused an argument. -/
inductive Outcome (α : Type) where
  /-- Normal return with a value. -/
  | returned (a : α)
  /-- The engine rejected an argument and a JavaScript exception is pending. -/
  | threw
  /-- A null pointer was dereferenced. -/
  | nullDeref

/-- Sequencing of calls: the first abnormal outcome ends the computation. -/
def Outcome.bind {α β : Type} : Outcome α → (α → Outcome β) → Outcome β
  | .returned a, f => f a
  | .threw, _ => .threw
  | .nullDeref, _ => .nullDeref

/-! ## JavaScript values -/

/-- The JavaScript values the bridge builds. -/
inductive JSValue where
  /-- A string, as the bytes it was created from. -/
  | str (s : CString)
  /-- An array; slot `none` is a hole. -/
  | array (elems : List (Option JSValue))
  /-- An object with its properties. -/
  | object (props : List (CString × JSValue))
  /-- A reference to the object that holds the property (a cycle). -/
  | self

/-- A JavaScript object: its properties, each key at most once. -/
abbrev JSObject := List (CString × JSValue)

/-- A JavaScript array: its slots. -/
abbrev JSArray := List (Option JSValue)

/-- `Napi::Object::New`: the object without properties. -/
def Napi.Object.New : JSObject := []

/-- `Napi::Array::New`: the array of length 0. -/
def Napi.Array.New : JSArray := []

/-- `Napi::Object::Set` with a name: the property is overwritten when it exists and
added otherwise. -/
def Napi.Object.Set : JSObject → CString → JSValue → JSObject
  | [], k, v => [(k, v)]
  | (k0, v0) :: rest, k, v =>
    if k0 = k then (k, v) :: rest else (k0, v0) :: Napi.Object.Set rest k v

/-- `Napi::Object::Get` with a name: the value of the property, if present. -/
def Napi.Object.Get : JSObject → CString → Option JSValue
  | [], _ => none
  | (k0, v0) :: rest, k => if k0 = k then some v0 else Napi.Object.Get rest k

/-- The property names of an object. -/
def Napi.Object.keys (o : JSObject) : List CString := o.map Prod.fst

/-- `Napi::Object::Set` with an index, on an array: slot `i` receives the value; when
`i` is beyond the current length the slots in between become holes. -/
def Napi.Array.Set (a : JSArray) (i : Nat) (v : JSValue) : JSArray :=
  if i < a.length then List.set a i (some v)
  else a ++ List.replicate (i - a.length) none ++ [some v]

/-- `Napi::String::New(env, value)`: the string ends at the first zero byte. -/
def Napi.String.New (value : CString) : JSValue := .str (cstr value)

/-- `Napi::String::New(env, value, length)` with `length` an `int` converted to
`size_t`. `-1` becomes `NAPI_AUTO_LENGTH` (zero-terminated string); any other
negative number becomes a length above `INT_MAX`, which the engine rejects with
`napi_invalid_arg`; otherwise `length` bytes are taken, zero bytes included. The
stored bytes are all the model knows of the buffer: a length beyond them yields the
stored bytes. -/
def Napi.String.NewLen (value : CString) (length : Int) : Outcome JSValue :=
  if length = -1 then .returned (.str (cstr value))
  else if length < 0 then .threw
  else .returned (.str (value.take length.toNat))

/-! ## The attribute structures of the kernel (`map`, `maps`) -/

/-- The kernel's `map`: one attribute node. The `next` link is the tail of the list
that holds the node. The name is a C string and holds no zero byte; the value is a
buffer and may hold some. -/
structure map where
  /-- The name of the attribute. -/
  name : CString
  /-- The buffer of the attribute's value. -/
  value : CString

/-- The kernel's `maps`: a chain of named groups. `nil` is the null pointer; a group
has its name, its content (a chain of `map`), its nested groups (`child`) and its
sibling (`next`). -/
inductive maps where
  /-- The null pointer. -/
  | nil
  /-- One group followed by its siblings. -/
  | cons (name : CString) (content : List map) (child : maps) (next : maps)

/-- Modelled from the spec: the kernel's `getMap` helper, which this file only calls.
The spec makes the reserved names case-insensitive and speaks of the presence of a
node with a given name, so the helper returns the first node of the chain whose name
equals the key when ASCII case is ignored, or nothing. -/
def getMap (t : List map) (key : CString) : Option map :=
  t.find? (fun m => decide (m.name.map tolower = key.map tolower))

/-- The two kernel helpers whose behaviour the spec does not fix and which this file
only calls. `getMapType` is the type resolver: the node naming the element type of a
content chain, if any. `getMapArray` is the indexed lookup: the node that holds
element `i` of the family named by the key, if any. -/
structure Helpers where
  /-- The kernel's `getMapType`. -/
  getMapType : List map → Option map
  /-- The kernel's `getMapArray`. -/
  getMapArray : List map → CString → Nat → Option map

/-! ## `JSObject_FromMap` -/

/-- The value created for one node in the scalar loop (lines 148-152): a string of
`atoi(isBinary->value)` bytes when a `size` node exists and the name begins with
"value" (5 bytes, case ignored), a zero-terminated string otherwise. -/
def scalarValue (isBinary : Option map) (m : map) : Outcome JSValue :=
  match isBinary with
  | some sz =>
    if strncasecmp m.name (bytes "value") 5 = 0 then Napi.String.NewLen m.value (atoi sz.value)
    else .returned (Napi.String.New m.value)
  | none => .returned (Napi.String.New m.value)

/-- The loop of lines 147-158, run when `isArray` is absent: every node sets the
property of its name on `res`. -/
def scalarLoop (isBinary : Option map) : List map → JSObject → Outcome JSObject
  | [], res => .returned res
  | m :: rest, res =>
    (scalarValue isBinary m).bind fun jsstr =>
      scalarLoop isBinary rest (Napi.Object.Set res m.name jsstr)

/-- One turn of the loop of lines 166-183, for index `i`, on the two arrays. -/
def arrayStep (h : Helpers) (t : List map) (tname : CString) (acc : JSArray × JSArray)
    (i : Nat) : Outcome (JSArray × JSArray) :=
  let tmpm1 := h.getMapArray t (bytes "value") i
  let tmpm2 := h.getMapArray t tname i
  let tmpm3 := h.getMapArray t (bytes "size") i
  let values : Outcome JSArray :=
    match tmpm1 with
    | some m1 =>
      (match tmpm3 with
        | some m3 => Napi.String.NewLen m1.value (atoi m3.value)
        | none => .returned (Napi.String.New m1.value)).bind fun jsstr =>
        .returned (Napi.Array.Set acc.1 i jsstr)
    | none => .returned acc.1
  values.bind fun vs =>
    match tmpm2 with
    | some m2 => .returned (vs, Napi.Array.Set acc.2 i (Napi.String.New m2.value))
    | none => .returned (vs, acc.2)

/-- The loop of lines 166-183 over the given indices, in order. -/
def arrayLoop (h : Helpers) (t : List map) (tname : CString) :
    List Nat → JSArray × JSArray → Outcome (JSArray × JSArray)
  | [], acc => .returned acc
  | i :: is, acc => (arrayStep h t tname acc i).bind fun acc1 => arrayLoop h t tname is acc1

/-- The loop of lines 188-199: a node whose name begins neither with "value", nor with
"size", nor with the name of the type node (case ignored) sets the property of its
name to its zero-terminated value. -/
def passThrough (tname : CString) : List map → JSObject → JSObject
  | [], res => res
  | m :: rest, res =>
    if strncasecmp m.name (bytes "value") 5 ≠ 0 ∧ strncasecmp m.name (bytes "size") 4 ≠ 0 ∧
        strncasecmp m.name tname (strlen tname) ≠ 0 then
      passThrough tname rest (Napi.Object.Set res m.name (Napi.String.New m.value))
    else passThrough tname rest res

/-- The function `JSObject_FromMap` (lines 133-202). With `isArray` absent the scalar
loop runs. With `isArray` present, `len->value` is read (a null dereference when
`length` is absent), then `tmap->name` is read, in the loop when the count is
positive and on line 186 in any case (a null dereference when the resolver found
nothing); the two arrays are built, set on `res`, and the other nodes are passed
through. -/
def JSObject_FromMap (h : Helpers) (t : List map) : Outcome JSObject :=
  let isArray := getMap t (bytes "isArray")
  let isBinary := getMap t (bytes "size")
  let tmap := h.getMapType t
  match isArray with
  | none => scalarLoop isBinary t Napi.Object.New
  | some _ =>
    match getMap t (bytes "length") with
    | none => .nullDeref
    | some len =>
      let cnt := atoi len.value
      match tmap with
      | none => .nullDeref
      | some tm =>
        (arrayLoop h t tm.name (List.range cnt.toNat) (Napi.Array.New, Napi.Array.New)).bind
          fun acc =>
            let res := Napi.Object.Set Napi.Object.New (bytes "value") (.array acc.1)
            let res := Napi.Object.Set res tm.name (.array acc.2)
            .returned (passThrough tm.name t res)

/-! ## `JSObject_FromMaps` -/

/-- The loop of `JSObject_FromMaps` (lines 110-122) with the result object `res` of
line 108. Each group is converted to `obj`; a non-null `child` is converted by a
nested call and set as `child` on `obj`; then line 117 sets the property named after
the group on `obj` itself, with `obj` as its value. Nothing is ever set on `res`. -/
def JSObject_FromMaps.loop (h : Helpers) : maps → JSObject → Outcome JSObject
  | .nil, res => .returned res
  | .cons name content child next, res =>
    (JSObject_FromMap h content).bind fun obj =>
      (match child with
        | .nil => Outcome.returned obj
        | .cons n c ch nx =>
          (JSObject_FromMaps.loop h (.cons n c ch nx) Napi.Object.New).bind fun childObj =>
            .returned (Napi.Object.Set obj (bytes "child") (.object childObj))).bind
        fun obj1 =>
          let _obj2 := Napi.Object.Set obj1 name .self
          JSObject_FromMaps.loop h next res

/-- The function `JSObject_FromMaps` (lines 105-124). -/
def JSObject_FromMaps (h : Helpers) (t : maps) : Outcome JSObject :=
  JSObject_FromMaps.loop h t Napi.Object.New

/-! ## The bridge entry point -/

/-- The kernel's `service` structure, of which only the name matters here. -/
structure service where
  /-- The name of the service, which is the name of the function to run. -/
  name : CString

/-- What the engine answers to the calls made during one invocation of the bridge. -/
structure EngineRun where
  /-- The exit code of `node::InitializeNodeWithArgs`. -/
  initCode : Int
  /-- Whether `node::CommonEnvironmentSetup::Create` returned a setup. -/
  setupCreated : Bool
  /-- Whether `node::LoadEnvironment` returned a value (`false`: a JavaScript
  exception was thrown). -/
  loadReturned : Bool
  /-- The result of `node::SpinEventLoop`, a `Maybe<int>`. -/
  loopCode : Option Int

/-- The process-wide state of the bridge: whether the static `platform` is set, and
(for the statements about initialisation) how often `node::InitializeNodeWithArgs`
has been called so far. -/
structure Process where
  /-- The static `platform` is not null. -/
  platform : Bool
  /-- Number of calls of `node::InitializeNodeWithArgs` made so far. -/
  initCalls : Nat

/-- The function `NodeJSInit` (lines 47-61): the exit code, and the process state
after the call. The platform is created only when the exit code is 0. -/
def NodeJSInit (e : EngineRun) (p : Process) : Int × Process :=
  let exit_code := e.initCode
  let p1 : Process := ⟨p.platform, p.initCalls + 1⟩
  if exit_code ≠ 0 then (exit_code, p1) else (0, ⟨true, p1.initCalls⟩)

/-- The function `JSLoadScripts` (lines 63-96). The statement of lines 89-91 reads
`env->` followed by `exit_code = node::SpinEventLoop(env).FromMaybe(1);`. Read as
written it stores the loop's code in a member of `env` and the local `exit_code`
keeps its initial 0 (`memberStore = true`); without the dangling `env->` it assigns
the local (`memberStore = false`). Both readings are kept. -/
def JSLoadScripts (memberStore : Bool) (e : EngineRun) : Int :=
  let exit_code : Int := 0
  if e.setupCreated = false then 1
  else if e.loadReturned = false then 2
  else if memberStore then exit_code else e.loopCode.getD 1

/-- The function `zoo_nodejs_support` (lines 217-225): the returned integer, the
process state after the call and the caller's `outputs` after the call. None of the
five arguments is read, and `outputs` is not written. -/
def zoo_nodejs_support (memberStore : Bool) (e : EngineRun) (p : Process)
    (_main_conf : maps) (_request : List map) (_s : service) (_inputs : maps)
    (outputs : maps) : Int × Process × maps :=
  if p.platform = false then
    let r := NodeJSInit e p
    if r.1 ≠ 0 then (r.1, r.2, outputs)
    else (JSLoadScripts memberStore e, r.2, outputs)
  else (JSLoadScripts memberStore e, p, outputs)

/-! ## Inputs used in the examples -/

/-- The decimal digits of a number, as bytes. -/
def decimal (i : Nat) : CString := (Nat.toDigits 10 i).map Char.toNat

/-- A pair of helpers used in the examples. Element 0 of the family `X` is the node
named `X` and element `i > 0` is the node named `X_i`; the type node is the first
present of `mimeType`, `dataType`, `CRS`. -/
def exampleHelpers : Helpers where
  getMapType t :=
    match getMap t (bytes "mimeType") with
    | some m => some m
    | none =>
      match getMap t (bytes "dataType") with
      | some m => some m
      | none => getMap t (bytes "CRS")
  getMapArray t key i := getMap t (if i = 0 then key else key ++ bytes "_" ++ decimal i)

/-- A node with the given name and value, from string literals. -/
def node (name value : String) : map := ⟨bytes name, bytes value⟩

/-- Whether an outcome is an explicit failure: a pending JavaScript exception. -/
def Outcome.isFailure {α : Type} : Outcome α → Bool
  | .threw => true
  | _ => false

/-! ## Descriptions used in the statements -/

/-- The object after every node of the chain, in order, has set the property of its
name to `f` of the node. -/
def setAll (f : map → JSValue) : List map → JSObject → JSObject
  | [], res => res
  | m :: rest, res => setAll f rest (Napi.Object.Set res m.name (f m))

/-- The test of line 189-190: the name begins neither with "value", nor with "size",
nor with the name of the type node, case ignored. -/
def passes (tname : CString) (m : map) : Prop :=
  strncasecmp m.name (bytes "value") 5 ≠ 0 ∧ strncasecmp m.name (bytes "size") 4 ≠ 0 ∧
    strncasecmp m.name tname (strlen tname) ≠ 0

instance (tname : CString) (m : map) : Decidable (passes tname m) := by
  unfold passes; infer_instance

/-- The payload of element `i` as the specification describes it: nothing when the family
"value" has no element `i`; the first `size_i` bytes when the family "size" has an
element `i`; the zero-terminated string otherwise. -/
def valueSlot (h : Helpers) (t : List map) (i : Nat) : Option JSValue :=
  match h.getMapArray t (bytes "value") i with
  | some v =>
    match h.getMapArray t (bytes "size") i with
    | some s => some (.str (v.value.take (atoi s.value).toNat))
    | none => some (.str (cstr v.value))
  | none => none

/-- The type label of element `i`: the zero-terminated value of element `i` of the
family named after the type node, when there is one. -/
def tagSlot (h : Helpers) (t : List map) (tname : CString) (i : Nat) : Option JSValue :=
  match h.getMapArray t tname i with
  | some w => some (.str (cstr w.value))
  | none => none

/-- The sizes that govern an element below `n` are byte counts: none is negative. -/
def sizesAreCounts (h : Helpers) (t : List map) (n : Nat) : Prop :=
  ∀ i, i < n → ∀ v s, h.getMapArray t (bytes "value") i = some v →
    h.getMapArray t (bytes "size") i = some s → 0 ≤ atoi s.value


/-- A row of slots cut after its last filled slot: a JavaScript array has no
trailing holes, its length being one more than its last index in use. -/
def dropTrailingHoles (a : JSArray) : JSArray := List.rdropWhile Option.isNone a

/-- What one turn of the index loop does to one array: a value is set at the index,
nothing leaves the array as it is. -/
def setSlot (a : JSArray) (i : Nat) : Option JSValue → JSArray
  | some v => Napi.Array.Set a i v
  | none => a

/-- The chain of the example for C5: `length=3`, value nodes at indices 0 and 2 only,
one type node. -/
def sparseInput : List map :=
  [node "isArray" "true", node "length" "3", node "dataType" "string",
   node "value" "a", node "value_2" "c"]

/-- The chain of the witness for C6: one element and an extra node `units`. -/
def unitsInput : List map :=
  [node "isArray" "true", node "length" "1", node "dataType" "string",
   node "value" "12", node "units" "meters"]

/-- The chain of the example for C7: an array group whose `length` is not a number. -/
def badLengthInput : List map :=
  [node "isArray" "true", node "length" "abc", node "dataType" "string", node "value" "x"]

/-- The chain of the example for C8: an array group without any type node. -/
def untypedInput : List map :=
  [node "isArray" "true", node "length" "1", node "value" "x"]

/-- The forest of the example for C1: one group `S` holding `value`. -/
def forestS : maps := .cons (bytes "S") [node "value" "world"] .nil .nil

/-- The inputs forest of the example for C11: the group `S` with `value` "world". -/
def helloInputs : maps := .cons (bytes "S") [node "value" "world"] .nil .nil

/-- The outputs forest of the example for C11 before the call: the group `result`
with an empty `value`. -/
def helloOutputs : maps := .cons (bytes "result") [node "value" ""] .nil .nil

/-- The outputs forest the built-in script `hello_nodejs` would leave for the inputs
`helloInputs`, had it been run on them. -/
def helloExpected : maps :=
  .cons (bytes "result") [node "value" "Hello world from the JS World !"] .nil .nil

/-- One call of the bridge: what the engine answers during it, and the arguments. -/
structure Call where
  /-- The answers of the engine. -/
  engine : EngineRun
  /-- The argument `main_conf`. -/
  main_conf : maps
  /-- The argument `request`. -/
  request : List map
  /-- The argument `s`. -/
  s : service
  /-- The argument `inputs`. -/
  inputs : maps
  /-- The argument `outputs`. -/
  outputs : maps

/-- The process state after a sequence of calls of `zoo_nodejs_support`, in order. -/
def runCalls (memberStore : Bool) : List Call → Process → Process
  | [], p => p
  | c :: cs, p =>
    runCalls memberStore cs
      (zoo_nodejs_support memberStore c.engine p c.main_conf c.request c.s c.inputs
        c.outputs).2.1

/-- The number of calls up to and including the first one whose initialisation
returns 0 (all of them when there is none). -/
def callsUntilInitialised : List Call → Nat
  | [] => 0
  | c :: cs => if c.engine.initCode = 0 then 1 else 1 + callsUntilInitialised cs

/-- A call in which the initialisation fails with the given exit code. -/
def failingCall (code : Int) : Call :=
  ⟨⟨code, true, true, some 0⟩, .nil, [], ⟨bytes "hello_nodejs"⟩, .nil, .nil⟩

/-- The scalar-mode rules alone: the loop of lines 147-158 on the whole chain. -/
def scalarRules (t : List map) : Outcome JSObject :=
  scalarLoop (getMap t (bytes "size")) t Napi.Object.New

/-- The array-mode rules alone: the block of lines 160-199. -/
def arrayRules (h : Helpers) (t : List map) : Outcome JSObject :=
  match getMap t (bytes "length") with
  | none => .nullDeref
  | some len =>
    match h.getMapType t with
    | none => .nullDeref
    | some tm =>
      (arrayLoop h t tm.name (List.range (atoi len.value).toNat)
          (Napi.Array.New, Napi.Array.New)).bind
        fun acc =>
          .returned (passThrough tm.name t
            (Napi.Object.Set (Napi.Object.Set Napi.Object.New (bytes "value") (.array acc.1))
              tm.name (.array acc.2)))

/-- The chain of the witness for C12: an `isArray` node, in capitals, with the value
"false". -/
def falseArrayInput : List map :=
  [node "ISARRAY" "false", node "length" "1", node "dataType" "string", node "value" "x"]

/-- Lines 113-116 for one group: a non-null `child` is converted by a nested call and
set as `child` on the object of the group. -/
def attachChild (h : Helpers) (obj : JSObject) : maps → Outcome JSObject
  | .nil => .returned obj
  | .cons n c ch nx =>
    (JSObject_FromMaps h (.cons n c ch nx)).bind fun childObj =>
      .returned (Napi.Object.Set obj (bytes "child") (.object childObj))

/-- Lines 112-117 for one group: the object `obj` of the group after line 117. -/
def groupObject (h : Helpers) (name : CString) (content : List map) (child : maps) :
    Outcome JSObject :=
  (JSObject_FromMap h content).bind fun obj =>
    (attachChild h obj child).bind fun obj1 =>
      .returned (Napi.Object.Set obj1 name .self)

/-- Every group of the forest, at every depth, has a content that `JSObject_FromMap`
converts to an object. -/
def allConvert (h : Helpers) : maps → Prop
  | .nil => True
  | .cons _ content child next =>
    (∃ obj, JSObject_FromMap h content = .returned obj) ∧ allConvert h child ∧
      allConvert h next

/-- The forest of the witness for C13: the group `S` with a nested group `T`, and a
sibling `U`. -/
def nestedForest : maps :=
  .cons (bytes "S") [node "value" "x"]
    (.cons (bytes "T") [node "value" "y"] .nil .nil)
    (.cons (bytes "U") [node "value" "z"] .nil .nil)

/-- The chain of the witness for C16: one element, and nodes named `VALUE` and
`DATATYPE` next to the nodes `value` and `dataType`. -/
def shoutingInput : List map :=
  [node "isArray" "true", node "length" "1", node "dataType" "string", node "value" "x",
   node "VALUE" "shout", node "DATATYPE" "loud", node "units" "m"]

/-- The object `JSObject_FromMap` returns for `shoutingInput`. -/
def shoutingOutput : JSObject :=
  [(bytes "value", .array [some (.str (bytes "x"))]),
   (bytes "dataType", .array [some (.str (bytes "string"))]),
   (bytes "isArray", .str (bytes "true")), (bytes "length", .str (bytes "1")),
   (bytes "units", .str (bytes "m"))]

/-! ## Lemmas on objects -/

theorem Get_Set_same (o : JSObject) (k : CString) (v : JSValue) :
    Napi.Object.Get (Napi.Object.Set o k v) k = some v := by
  induction o with
  | nil => simp [Napi.Object.Set, Napi.Object.Get]
  | cons p rest ih =>
    obtain ⟨k0, v0⟩ := p
    by_cases hk : k0 = k
    · simp [Napi.Object.Set, Napi.Object.Get, hk]
    · simp [Napi.Object.Set, Napi.Object.Get, hk, ih]

theorem Get_Set_other (o : JSObject) (k k1 : CString) (v : JSValue) (hne : k1 ≠ k) :
    Napi.Object.Get (Napi.Object.Set o k v) k1 = Napi.Object.Get o k1 := by
  induction o with
  | nil => simp [Napi.Object.Set, Napi.Object.Get, Ne.symm hne]
  | cons p rest ih =>
    obtain ⟨k0, v0⟩ := p
    by_cases hk : k0 = k
    · subst hk
      simp [Napi.Object.Set, Napi.Object.Get, Ne.symm hne]
    · by_cases hk1 : k0 = k1
      · subst hk1
        simp [Napi.Object.Set, Napi.Object.Get, hne]
      · simp [Napi.Object.Set, Napi.Object.Get, hk, hk1, ih]

theorem mem_keys_Set (o : JSObject) (k x : CString) (v : JSValue) :
    x ∈ Napi.Object.keys (Napi.Object.Set o k v) ↔ x = k ∨ x ∈ Napi.Object.keys o := by
  induction o with
  | nil => simp [Napi.Object.Set, Napi.Object.keys]
  | cons p rest ih =>
    obtain ⟨k0, v0⟩ := p
    by_cases hk : k0 = k
    · subst hk
      simp [Napi.Object.Set, Napi.Object.keys]
    · simp only [Napi.Object.keys] at ih
      simp only [Napi.Object.Set, hk, if_false, Napi.Object.keys, List.map_cons, List.mem_cons, ih]
      tauto

theorem nodup_keys_Set (o : JSObject) (k : CString) (v : JSValue)
    (hnd : (Napi.Object.keys o).Nodup) : (Napi.Object.keys (Napi.Object.Set o k v)).Nodup := by
  induction o with
  | nil => simp [Napi.Object.Set, Napi.Object.keys]
  | cons p rest ih =>
    obtain ⟨k0, v0⟩ := p
    have hnd1 : k0 ∉ Napi.Object.keys rest ∧ (Napi.Object.keys rest).Nodup := by
      simpa [Napi.Object.keys] using hnd
    by_cases hk : k0 = k
    · subst hk
      simpa [Napi.Object.Set, Napi.Object.keys] using hnd
    · have hmem := mem_keys_Set rest k k0 v
      have ih1 := ih hnd1.2
      simp only [Napi.Object.keys] at hmem ih1 hnd1
      simp only [Napi.Object.Set, hk, if_false, Napi.Object.keys, List.map_cons, List.nodup_cons]
      exact ⟨by rw [hmem]; tauto, ih1⟩

theorem Get_eq_none_iff (o : JSObject) (k : CString) :
    Napi.Object.Get o k = none ↔ k ∉ Napi.Object.keys o := by
  induction o with
  | nil => simp [Napi.Object.Get, Napi.Object.keys]
  | cons p rest ih =>
    obtain ⟨k0, v0⟩ := p
    simp only [Napi.Object.keys] at ih
    by_cases hk : k0 = k
    · simp [Napi.Object.Get, Napi.Object.keys, hk]
    · simp [Napi.Object.Get, Napi.Object.keys, hk, ih, Ne.symm hk]

/-! ## Lemmas on the scalar loop -/

theorem mem_keys_setAll (f : map → JSValue) (t : List map) (res : JSObject) (k : CString) :
    k ∈ Napi.Object.keys (setAll f t res) ↔
      k ∈ Napi.Object.keys res ∨ ∃ m ∈ t, m.name = k := by
  induction t generalizing res with
  | nil => simp [setAll]
  | cons m rest ih =>
    simp only [setAll, ih, mem_keys_Set, List.mem_cons, exists_eq_or_imp]
    constructor
    · rintro ((h | h) | h)
      · exact Or.inr (Or.inl h.symm)
      · exact Or.inl h
      · exact Or.inr (Or.inr h)
    · rintro (h | h | h)
      · exact Or.inl (Or.inr h)
      · exact Or.inl (Or.inl h.symm)
      · exact Or.inr h

theorem nodup_keys_setAll (f : map → JSValue) (t : List map) (res : JSObject)
    (hnd : (Napi.Object.keys res).Nodup) : (Napi.Object.keys (setAll f t res)).Nodup := by
  induction t generalizing res with
  | nil => simpa [setAll] using hnd
  | cons m rest ih => exact ih _ (nodup_keys_Set res m.name (f m) hnd)

theorem Get_setAll_absent (f : map → JSValue) (t : List map) (res : JSObject) (k : CString)
    (hk : ∀ m ∈ t, m.name ≠ k) :
    Napi.Object.Get (setAll f t res) k = Napi.Object.Get res k := by
  induction t generalizing res with
  | nil => simp [setAll]
  | cons m rest ih =>
    have h1 : ∀ x ∈ rest, x.name ≠ k := fun x hx => hk x (List.mem_cons_of_mem _ hx)
    have h2 : k ≠ m.name := fun e => hk m (List.mem_cons_self _ _) e.symm
    simp only [setAll]
    rw [ih _ h1, Get_Set_other _ _ _ _ h2]

theorem Get_setAll_last (f : map → JSValue) (pre post : List map) (m : map) (res : JSObject)
    (hlast : ∀ x ∈ post, x.name ≠ m.name) :
    Napi.Object.Get (setAll f (pre ++ m :: post) res) m.name = some (f m) := by
  induction pre generalizing res with
  | nil =>
    simp only [List.nil_append, setAll]
    rw [Get_setAll_absent f post _ m.name hlast, Get_Set_same]
  | cons p rest ih => simpa [setAll] using ih _

theorem scalarLoop_eq (b : Option map) (f : map → JSValue) (t : List map) (res : JSObject)
    (hf : ∀ m ∈ t, scalarValue b m = .returned (f m)) :
    scalarLoop b t res = .returned (setAll f t res) := by
  induction t generalizing res with
  | nil => simp [scalarLoop, setAll]
  | cons m rest ih =>
    have h1 := hf m (List.mem_cons_self _ _)
    have h2 : ∀ x ∈ rest, scalarValue b x = .returned (f x) :=
      fun x hx => hf x (List.mem_cons_of_mem _ hx)
    simp only [scalarLoop, h1, Outcome.bind, setAll]
    exact ih _ h2

theorem passThrough_eq (tname : CString) (t : List map) (res : JSObject) :
    passThrough tname t res =
      setAll (fun m => Napi.String.New m.value) (t.filter fun m => decide (passes tname m)) res := by
  induction t generalizing res with
  | nil => simp [passThrough, setAll]
  | cons m rest ih =>
    by_cases hp : passes tname m
    · have hp1 := hp
      unfold passes at hp1
      simp [passThrough, hp1, List.filter_cons, hp, setAll, ih]
    · have hp1 := hp
      unfold passes at hp1
      simp [passThrough, hp1, List.filter_cons, hp, ih]

/-! ## Scalar mode -/

theorem scalarValue_none (m : map) :
    scalarValue none m = .returned (Napi.String.New m.value) := rfl

/-- C2. Scalar mode: when the chain has neither an `isArray` node nor a `size` node,
`JSObject_FromMap` returns an object whose property names are exactly the names of the
nodes, each once, so that their number is the number of distinct names; the property
of a name is the zero-terminated string value of the last node carrying that name. -/
theorem scalar_mode_last_writer_wins (h : Helpers) (t : List map)
    (hArray : getMap t (bytes "isArray") = none) (hSize : getMap t (bytes "size") = none) :
    ∃ obj, JSObject_FromMap h t = .returned obj ∧
      (∀ k, k ∈ Napi.Object.keys obj ↔ ∃ m ∈ t, m.name = k) ∧
      (Napi.Object.keys obj).Nodup ∧
      (Napi.Object.keys obj).length = ((t.map map.name).dedup).length ∧
      (∀ pre m post, t = pre ++ m :: post → (∀ x ∈ post, x.name ≠ m.name) →
        Napi.Object.Get obj m.name = some (.str (cstr m.value))) := by
  refine ⟨setAll (fun m => Napi.String.New m.value) t Napi.Object.New, ?_, ?_, ?_, ?_, ?_⟩
  · simp only [JSObject_FromMap, hArray, hSize]
    exact scalarLoop_eq none _ t _ (fun m _ => scalarValue_none m)
  · intro k
    rw [mem_keys_setAll]
    simp [Napi.Object.New, Napi.Object.keys]
  · exact nodup_keys_setAll _ t _ (by simp [Napi.Object.New, Napi.Object.keys])
  · apply List.Perm.length_eq
    rw [List.perm_ext_iff_of_nodup
      (nodup_keys_setAll _ t _ (by simp [Napi.Object.New, Napi.Object.keys]))
      (List.nodup_dedup _)]
    intro k
    rw [mem_keys_setAll]
    simp [Napi.Object.New, Napi.Object.keys]
  · intro pre m post ht hlast
    subst ht
    exact Get_setAll_last _ pre post m _ hlast

/-- Witness for C2: three nodes, two distinct names. -/
theorem scalar_mode_last_writer_wins_witness :
    ∃ obj, JSObject_FromMap exampleHelpers [node "a" "1", node "b" "2", node "a" "3"] =
        .returned obj ∧
      (∀ k, k ∈ Napi.Object.keys obj ↔
        ∃ m ∈ [node "a" "1", node "b" "2", node "a" "3"], m.name = k) ∧
      (Napi.Object.keys obj).Nodup ∧
      (Napi.Object.keys obj).length =
        (([node "a" "1", node "b" "2", node "a" "3"].map map.name).dedup).length ∧
      (∀ pre m post, [node "a" "1", node "b" "2", node "a" "3"] = pre ++ m :: post →
        (∀ x ∈ post, x.name ≠ m.name) →
        Napi.Object.Get obj m.name = some (.str (cstr m.value))) :=
  scalar_mode_last_writer_wins exampleHelpers [node "a" "1", node "b" "2", node "a" "3"]
    (by rfl) (by rfl)

theorem NewLen_of_nonneg (value : CString) (z : Int) (hz : 0 ≤ z) :
    Napi.String.NewLen value z = .returned (.str (value.take z.toNat)) := by
  unfold Napi.String.NewLen
  have h1 : ¬ z = -1 := by omega
  have h2 : ¬ z < 0 := by omega
  simp [h1, h2]

theorem dropTrailingHoles_length_le (l : JSArray) : (dropTrailingHoles l).length ≤ l.length :=
  (List.rdropWhile_prefix (p := Option.isNone) (l := l)).length_le

theorem dropTrailingHoles_pad (l : JSArray) :
    dropTrailingHoles l ++ List.replicate (l.length - (dropTrailingHoles l).length) none = l := by
  induction l using List.reverseRecOn with
  | nil => simp [dropTrailingHoles]
  | append_singleton l x ih =>
    cases x with
    | none =>
      have hle := dropTrailingHoles_length_le l
      have h1 : dropTrailingHoles (l ++ [none]) = dropTrailingHoles l :=
        List.rdropWhile_concat_pos _ _ _ (by simp)
      have h2 : (l ++ [none]).length - (dropTrailingHoles l).length =
          (l.length - (dropTrailingHoles l).length) + 1 := by
        simp only [List.length_append, List.length_singleton]; omega
      rw [h1, h2, List.replicate_succ', ← List.append_assoc, ih]
    | some v =>
      have h1 : dropTrailingHoles (l ++ [some v]) = l ++ [some v] :=
        List.rdropWhile_concat_neg _ _ _ (by simp)
      rw [h1]; simp

theorem setSlot_dropTrailingHoles (l : JSArray) (x : Option JSValue) :
    setSlot (dropTrailingHoles l) l.length x = dropTrailingHoles (l ++ [x]) := by
  cases x with
  | none =>
    simp only [setSlot]
    exact (List.rdropWhile_concat_pos _ _ _ (by simp)).symm
  | some v =>
    have hle := dropTrailingHoles_length_le l
    have h1 : dropTrailingHoles (l ++ [some v]) = l ++ [some v] :=
      List.rdropWhile_concat_neg _ _ _ (by simp)
    have h2 : ¬ l.length < (dropTrailingHoles l).length := by omega
    simp only [setSlot, Napi.Array.Set, h2, if_false, h1, dropTrailingHoles_pad]

theorem arrayLoop_append (h : Helpers) (t : List map) (tname : CString) (l1 l2 : List Nat)
    (acc : JSArray × JSArray) :
    arrayLoop h t tname (l1 ++ l2) acc =
      (arrayLoop h t tname l1 acc).bind fun acc1 => arrayLoop h t tname l2 acc1 := by
  induction l1 generalizing acc with
  | nil => simp [arrayLoop, Outcome.bind]
  | cons i is ih =>
    simp only [List.cons_append, arrayLoop]
    cases hs : arrayStep h t tname acc i with
    | returned a => simp [Outcome.bind, ih]
    | threw => simp [Outcome.bind]
    | nullDeref => simp [Outcome.bind]

theorem arrayStep_eq (h : Helpers) (t : List map) (tname : CString) (acc : JSArray × JSArray)
    (i : Nat)
    (hs : ∀ v s, h.getMapArray t (bytes "value") i = some v →
      h.getMapArray t (bytes "size") i = some s → 0 ≤ atoi s.value) :
    arrayStep h t tname acc i =
      .returned (setSlot acc.1 i (valueSlot h t i), setSlot acc.2 i (tagSlot h t tname i)) := by
  unfold arrayStep valueSlot tagSlot
  cases hv : h.getMapArray t (bytes "value") i with
  | none =>
    cases ht : h.getMapArray t tname i <;> simp [Outcome.bind, setSlot, Napi.String.New]
  | some v =>
    cases hz : h.getMapArray t (bytes "size") i with
    | none =>
      cases ht : h.getMapArray t tname i <;>
        simp [Outcome.bind, setSlot, Napi.String.New]
    | some s =>
      have h0 := hs v s hv hz
      cases ht : h.getMapArray t tname i <;>
        simp [Outcome.bind, setSlot, NewLen_of_nonneg _ _ h0, Napi.String.New]

theorem arrayLoop_range (h : Helpers) (t : List map) (tname : CString) (n : Nat)
    (hs : sizesAreCounts h t n) :
    arrayLoop h t tname (List.range n) (Napi.Array.New, Napi.Array.New) =
      .returned (dropTrailingHoles ((List.range n).map (valueSlot h t)),
        dropTrailingHoles ((List.range n).map (tagSlot h t tname))) := by
  induction n with
  | zero => simp [arrayLoop, Napi.Array.New, dropTrailingHoles]
  | succ k ih =>
    have hs1 : sizesAreCounts h t k := fun i hi => hs i (Nat.lt_succ_of_lt hi)
    rw [List.range_succ, arrayLoop_append, ih hs1]
    simp only [Outcome.bind, arrayLoop]
    rw [arrayStep_eq h t tname _ k (hs k (Nat.lt_succ_self k))]
    simp only [Outcome.bind, List.map_append, List.map_cons, List.map_nil]
    have e1 := setSlot_dropTrailingHoles ((List.range k).map (valueSlot h t)) (valueSlot h t k)
    have e2 := setSlot_dropTrailingHoles ((List.range k).map (tagSlot h t tname))
      (tagSlot h t tname k)
    simp only [List.length_map, List.length_range] at e1 e2
    rw [e1, e2]

/-! ## Array mode -/

theorem strncasecmp_self (a : CString) (n : Nat) : strncasecmp a a n = 0 := by
  induction a generalizing n with
  | nil => cases n <;> simp [strncasecmp]
  | cons x xs ih => cases n <;> simp [strncasecmp, ih]

theorem not_passes_value (tname : CString) (m : map) (hm : m.name = bytes "value") :
    ¬ passes tname m := by
  intro hp
  apply hp.1
  rw [hm]
  exact strncasecmp_self _ _

theorem not_passes_type (tname : CString) (m : map) (hm : m.name = tname) :
    ¬ passes tname m := by
  intro hp
  apply hp.2.2
  rw [hm]
  exact strncasecmp_self _ _

theorem passes_of_name_eq (tname : CString) (m1 m2 : map) (hname : m1.name = m2.name)
    (hp : passes tname m1) : passes tname m2 := by
  unfold passes at hp ⊢
  rw [← hname]
  exact hp

/-- The object built on lines 185-186: the two arrays under "value" and under the name
of the type node. -/
theorem JSObject_FromMap_array_mode (h : Helpers) (t : List map) (a len tm : map)
    (hArray : getMap t (bytes "isArray") = some a)
    (hLen : getMap t (bytes "length") = some len)
    (hType : h.getMapType t = some tm)
    (hSizes : sizesAreCounts h t (atoi len.value).toNat) :
    JSObject_FromMap h t = .returned
      (passThrough tm.name t
        (Napi.Object.Set
          (Napi.Object.Set Napi.Object.New (bytes "value")
            (.array (dropTrailingHoles
              ((List.range (atoi len.value).toNat).map (valueSlot h t)))))
          tm.name
          (.array (dropTrailingHoles
            ((List.range (atoi len.value).toNat).map (tagSlot h t tm.name)))))) := by
  simp only [JSObject_FromMap, hArray, hLen, hType,
    arrayLoop_range h t tm.name _ hSizes, Outcome.bind]

theorem Get_passThrough_of_not_passes (tname : CString) (t : List map) (res : JSObject)
    (m : map) (hm : ¬ passes tname m) :
    Napi.Object.Get (passThrough tname t res) m.name = Napi.Object.Get res m.name := by
  rw [passThrough_eq]
  apply Get_setAll_absent
  intro x hx hname
  have hx1 : passes tname x := by simpa using (List.mem_filter.mp hx).2
  exact hm (passes_of_name_eq tname x m hname hx1)

theorem Get_passThrough_last (tname : CString) (pre post : List map) (m : map)
    (res : JSObject) (hlast : ∀ x ∈ post, x.name ≠ m.name) (hp : passes tname m) :
    Napi.Object.Get (passThrough tname (pre ++ m :: post) res) m.name =
      some (.str (cstr m.value)) := by
  rw [passThrough_eq, List.filter_append, List.filter_cons]
  simp only [hp, decide_True, if_true]
  rw [Get_setAll_last]
  · rfl
  · intro x hx
    exact hlast x (List.mem_filter.mp hx).1

theorem Get_passThrough_value (tname : CString) (t : List map) (res : JSObject) :
    Napi.Object.Get (passThrough tname t res) (bytes "value") =
      Napi.Object.Get res (bytes "value") :=
  Get_passThrough_of_not_passes tname t res ⟨bytes "value", []⟩
    (not_passes_value tname _ rfl)

theorem Get_passThrough_type (tname : CString) (t : List map) (res : JSObject) :
    Napi.Object.Get (passThrough tname t res) tname = Napi.Object.Get res tname :=
  Get_passThrough_of_not_passes tname t res ⟨tname, []⟩ (not_passes_type tname _ rfl)

theorem getElem?_dropTrailingHoles_of_lt (l : JSArray) (i : Nat)
    (hi : i < (dropTrailingHoles l).length) : (dropTrailingHoles l)[i]? = l[i]? := by
  have hp : dropTrailingHoles l <+: l := List.rdropWhile_prefix (p := Option.isNone) (l := l)
  obtain ⟨r, hr⟩ := hp
  conv_rhs => rw [← hr]
  rw [List.getElem?_append_left hi]

theorem lt_length_dropTrailingHoles (l : JSArray) (i : Nat) (x : JSValue)
    (hx : l[i]? = some (some x)) : i < (dropTrailingHoles l).length := by
  by_contra hlt
  have hpad := dropTrailingHoles_pad l
  have hge : (dropTrailingHoles l).length ≤ i := Nat.le_of_not_lt hlt
  rw [← hpad, List.getElem?_append_right hge] at hx
  rw [List.getElem?_replicate] at hx
  split at hx <;> simp at hx

/-- A filled slot of the row is kept, at its index, when the trailing holes go. -/
theorem getElem?_dropTrailingHoles_filled (f : Nat → Option JSValue) (n i : Nat)
    (x : JSValue) (hi : i < n) (hx : f i = some x) :
    (dropTrailingHoles ((List.range n).map f))[i]? = some (some x) := by
  have h1 : ((List.range n).map f)[i]? = some (some x) := by
    rw [List.getElem?_map, List.getElem?_range hi]; simp [hx]
  rw [getElem?_dropTrailingHoles_of_lt _ i (lt_length_dropTrailingHoles _ i x h1)]
  exact h1

/-- An empty slot below the length of the array is a hole of the array. -/
theorem getElem?_dropTrailingHoles_hole (f : Nat → Option JSValue) (n i : Nat)
    (hi : i < (dropTrailingHoles ((List.range n).map f)).length) (hx : f i = none) :
    (dropTrailingHoles ((List.range n).map f))[i]? = some none := by
  have hle := dropTrailingHoles_length_le ((List.range n).map f)
  have hin : i < n := by simpa using Nat.lt_of_lt_of_le hi hle
  rw [getElem?_dropTrailingHoles_of_lt _ i hi, List.getElem?_map, List.getElem?_range hin]
  simp [hx]

/-- C5, counterexample. With `length=3` and value nodes at indices 0 and 2 only, two
indices have a value node, yet the `value` array has length 3: index 1 is a hole
between the two payloads, it is not skipped. -/
theorem sparse_index_is_a_hole :
    ((List.range 3).filter fun i =>
        (exampleHelpers.getMapArray sparseInput (bytes "value") i).isSome).length = 2 ∧
    ∃ obj values, JSObject_FromMap exampleHelpers sparseInput = .returned obj ∧
      Napi.Object.Get obj (bytes "value") = some (.array values) ∧
      values = [some (.str (bytes "a")), none, some (.str (bytes "c"))] ∧
      values.length = 3 ∧ values.length ≠ 2 :=
  ⟨by rfl, _, _, rfl, rfl, rfl, rfl, by decide⟩

/-- C5, amended. The arrays are addressed by index: when `isArray` is present, `length`
parses to `N`, the type node is resolved and not named "value", and the sizes are byte
counts, `JSObject_FromMap` returns an object whose `value` array holds at every index
below `N` that has a value node the payload of that node, at that very index, has a
hole at every index without one that lies below a later filled index, and ends after
the last filled index; likewise for the type array. The length is one more than the
last filled index, not the number of filled indices. -/
theorem array_mode_index_aligned (h : Helpers) (t : List map) (a len tm : map) (N : Nat)
    (hArray : getMap t (bytes "isArray") = some a)
    (hLen : getMap t (bytes "length") = some len) (hN : atoi len.value = (N : Int))
    (hType : h.getMapType t = some tm) (hT : tm.name ≠ bytes "value")
    (hSizes : sizesAreCounts h t N) :
    ∃ obj values tags, JSObject_FromMap h t = .returned obj ∧
      Napi.Object.Get obj (bytes "value") = some (.array values) ∧
      Napi.Object.Get obj tm.name = some (.array tags) ∧
      values = dropTrailingHoles ((List.range N).map (valueSlot h t)) ∧
      tags = dropTrailingHoles ((List.range N).map (tagSlot h t tm.name)) ∧
      (∀ i x, i < N → valueSlot h t i = some x → values[i]? = some (some x)) ∧
      (∀ i, i < values.length → valueSlot h t i = none → values[i]? = some none) ∧
      (∀ i x, i < N → tagSlot h t tm.name i = some x → tags[i]? = some (some x)) ∧
      (∀ i, i < tags.length → tagSlot h t tm.name i = none → tags[i]? = some none) := by
  have hN1 : (atoi len.value).toNat = N := by rw [hN]; exact Int.toNat_ofNat N
  have hret := JSObject_FromMap_array_mode h t a len tm hArray hLen hType (by rw [hN1]; exact hSizes)
  rw [hN1] at hret
  refine ⟨_, _, _, hret, ?_, ?_, rfl, rfl, ?_, ?_, ?_, ?_⟩
  · rw [Get_passThrough_value, Get_Set_other _ _ _ _ (Ne.symm hT), Get_Set_same]
  · rw [Get_passThrough_type, Get_Set_same]
  · exact fun i x hi hx => getElem?_dropTrailingHoles_filled _ N i x hi hx
  · exact fun i hi hx => getElem?_dropTrailingHoles_hole _ N i hi hx
  · exact fun i x hi hx => getElem?_dropTrailingHoles_filled _ N i x hi hx
  · exact fun i hi hx => getElem?_dropTrailingHoles_hole _ N i hi hx

/-- Witness for C5: on the sparse chain the `value` array has the payloads at indices
0 and 2 and a hole at index 1. -/
theorem array_mode_index_aligned_witness :
    ∃ obj values, JSObject_FromMap exampleHelpers sparseInput = .returned obj ∧
      Napi.Object.Get obj (bytes "value") = some (.array values) ∧
      values[0]? = some (some (.str (bytes "a"))) ∧
      values[2]? = some (some (.str (bytes "c"))) := by
  obtain ⟨obj, values, tags, hret, hv, _, _, _, hfilled, _, _, _⟩ :=
    array_mode_index_aligned exampleHelpers sparseInput (node "isArray" "true")
      (node "length" "3") (node "dataType" "string") 3 (by rfl) (by rfl) (by decide) (by rfl)
      (by decide)
      (by
        intro i hi v s _ hs
        interval_cases i
        · have e : exampleHelpers.getMapArray sparseInput (bytes "size") 0 = none := rfl
          rw [e] at hs
          cases hs
        · have e : exampleHelpers.getMapArray sparseInput (bytes "size") 1 = none := rfl
          rw [e] at hs
          cases hs
        · have e : exampleHelpers.getMapArray sparseInput (bytes "size") 2 = none := rfl
          rw [e] at hs
          cases hs)
  exact ⟨obj, values, hret, hv, hfilled 0 _ (by decide) rfl, hfilled 2 _ (by decide) rfl⟩

theorem Get_base_not_str (V M : JSArray) (tname k : CString) (s : CString) :
    Napi.Object.Get
      (Napi.Object.Set (Napi.Object.Set Napi.Object.New (bytes "value") (.array V)) tname
        (.array M)) k ≠ some (.str s) := by
  by_cases h1 : k = tname
  · subst h1
    rw [Get_Set_same]
    simp
  · rw [Get_Set_other _ _ _ _ h1]
    by_cases h2 : k = bytes "value"
    · subst h2
      rw [Get_Set_same]
      simp
    · rw [Get_Set_other _ _ _ _ h2]
      simp [Napi.Object.New, Napi.Object.Get]

theorem exists_last_of_name (t : List map) (k : CString) (hk : ∃ m ∈ t, m.name = k) :
    ∃ pre m1 post, t = pre ++ m1 :: post ∧ m1.name = k ∧ ∀ x ∈ post, x.name ≠ k := by
  induction t with
  | nil =>
    obtain ⟨m, hm, _⟩ := hk
    cases hm
  | cons x rest ih =>
    by_cases hex : ∃ y ∈ rest, y.name = k
    · obtain ⟨pre, m1, post, ht, hn, hlast⟩ := ih hex
      exact ⟨x :: pre, m1, post, by rw [ht]; rfl, hn, hlast⟩
    · have hx : x.name = k := by
        obtain ⟨m, hm, hmk⟩ := hk
        rcases List.mem_cons.mp hm with h | h
        · rw [← h]; exact hmk
        · exact absurd ⟨m, h, hmk⟩ hex
      exact ⟨[], x, rest, rfl, hx, fun y hy hyn => hex ⟨y, hy, hyn⟩⟩

/-- C6. Array-mode pass-through: when `isArray` is present, `length` is present, the
type node is resolved with name `T` and the sizes are byte counts, `JSObject_FromMap`
returns an object on which a node of the chain has a string property under its name
if and only if its name begins neither with "value", nor with "size", nor with `T`
(case ignored); the string is the zero-terminated value of the last node of that
name. In particular the nodes `units`, `length` and `isArray` are passed through
whenever `T` is not a beginning of their name. -/
theorem array_mode_pass_through (h : Helpers) (t : List map) (a len tm : map)
    (hArray : getMap t (bytes "isArray") = some a)
    (hLen : getMap t (bytes "length") = some len)
    (hType : h.getMapType t = some tm)
    (hSizes : sizesAreCounts h t (atoi len.value).toNat) :
    ∃ obj, JSObject_FromMap h t = .returned obj ∧
      (∀ m ∈ t, (∃ s, Napi.Object.Get obj m.name = some (.str s)) ↔
        (strncasecmp m.name (bytes "value") 5 ≠ 0 ∧ strncasecmp m.name (bytes "size") 4 ≠ 0 ∧
          strncasecmp m.name tm.name (strlen tm.name) ≠ 0)) ∧
      (∀ pre m post, t = pre ++ m :: post → (∀ x ∈ post, x.name ≠ m.name) →
        passes tm.name m → Napi.Object.Get obj m.name = some (.str (cstr m.value))) ∧
      (∀ pre m post, t = pre ++ m :: post → (∀ x ∈ post, x.name ≠ m.name) →
        (m.name = bytes "units" ∨ m.name = bytes "length" ∨ m.name = bytes "isArray") →
        strncasecmp m.name tm.name (strlen tm.name) ≠ 0 →
        Napi.Object.Get obj m.name = some (.str (cstr m.value))) := by
  refine ⟨_, JSObject_FromMap_array_mode h t a len tm hArray hLen hType hSizes, ?_, ?_, ?_⟩
  · intro m hm
    constructor
    · rintro ⟨s, hs⟩
      by_contra hnp
      have hnp1 : ¬ passes tm.name m := hnp
      rw [Get_passThrough_of_not_passes _ _ _ _ hnp1] at hs
      exact Get_base_not_str _ _ _ _ _ hs
    · intro hp
      obtain ⟨pre, m1, post, ht, hn, hlast⟩ := exists_last_of_name t m.name ⟨m, hm, rfl⟩
      have hp1 : passes tm.name m1 := passes_of_name_eq tm.name m m1 hn.symm hp
      refine ⟨cstr m1.value, ?_⟩
      rw [← hn]
      conv_lhs => rw [ht]
      exact Get_passThrough_last _ pre post m1 _ (fun x hx => by rw [hn]; exact hlast x hx) hp1
  · intro pre m post ht hlast hp
    conv_lhs => rw [ht]
    exact Get_passThrough_last _ pre post m _ hlast hp
  · intro pre m post ht hlast hname hT
    have hp : passes tm.name m := by
      refine ⟨?_, ?_, hT⟩
      · rcases hname with e | e | e <;> rw [e] <;> decide
      · rcases hname with e | e | e <;> rw [e] <;> decide
    conv_lhs => rw [ht]
    exact Get_passThrough_last _ pre post m _ hlast hp

/-- Witness for C6: the extra node `units="meters"` gives `units: "meters"` next to the
two arrays, and the nodes `length` and `isArray` are passed through as well. -/
theorem array_mode_pass_through_witness :
    ∃ obj, JSObject_FromMap exampleHelpers unitsInput = .returned obj ∧
      Napi.Object.Get obj (bytes "units") = some (.str (bytes "meters")) ∧
      Napi.Object.Get obj (bytes "length") = some (.str (bytes "1")) ∧
      Napi.Object.Get obj (bytes "isArray") = some (.str (bytes "true")) ∧
      ¬ (∃ s, Napi.Object.Get obj (bytes "value") = some (.str s)) ∧
      ¬ (∃ s, Napi.Object.Get obj (bytes "dataType") = some (.str s)) := by
  obtain ⟨obj, hret, hiff, hlast, _⟩ :=
    array_mode_pass_through exampleHelpers unitsInput (node "isArray" "true")
      (node "length" "1") (node "dataType" "string") (by rfl) (by rfl) (by rfl)
      (by
        intro i hi v s _ hs
        have hi1 : i < 1 := hi
        interval_cases i
        have e : exampleHelpers.getMapArray unitsInput (bytes "size") 0 = none := rfl
        rw [e] at hs
        cases hs)
  refine ⟨obj, hret, ?_, ?_, ?_, ?_, ?_⟩
  · exact hlast [node "isArray" "true", node "length" "1", node "dataType" "string",
      node "value" "12"] (node "units" "meters") [] rfl (by simp) (by decide)
  · exact hlast [node "isArray" "true"] (node "length" "1")
      [node "dataType" "string", node "value" "12", node "units" "meters"] rfl
      (by decide) (by decide)
  · exact hlast [] (node "isArray" "true")
      [node "length" "1", node "dataType" "string", node "value" "12", node "units" "meters"]
      rfl (by decide) (by decide)
  · exact fun hex => absurd ((hiff (node "value" "12") (by simp [unitsInput])).mp hex)
      (by decide)
  · exact fun hex => absurd ((hiff (node "dataType" "string") (by simp [unitsInput])).mp hex)
      (by decide)

/-! ## Failure conditions -/

/-- C7, counterexample. An array group whose `length` is "abc" is converted: the call
returns an object with two empty arrays, it does not fail. -/
theorem non_numeric_length_is_converted :
    (JSObject_FromMap exampleHelpers badLengthInput).isFailure = false ∧
    ∃ obj, JSObject_FromMap exampleHelpers badLengthInput = .returned obj ∧
      Napi.Object.Get obj (bytes "value") = some (.array []) ∧
      Napi.Object.Get obj (bytes "dataType") = some (.array []) :=
  ⟨rfl, _, rfl, rfl, rfl⟩

/-- C7, amended. When `isArray` is present, the `length` node is present with a value
that `atoi` reads as 0 or less (as it reads "abc"), and the type node is resolved,
`JSObject_FromMap` returns an object whose `value` array and type array are empty; the
outcome is not a failure. -/
theorem array_mode_length_read_as_zero (h : Helpers) (t : List map) (a len tm : map)
    (hArray : getMap t (bytes "isArray") = some a)
    (hLen : getMap t (bytes "length") = some len) (hN : atoi len.value ≤ 0)
    (hType : h.getMapType t = some tm) :
    (JSObject_FromMap h t).isFailure = false ∧
    ∃ obj, JSObject_FromMap h t = .returned obj ∧
      Napi.Object.Get obj (bytes "value") = some (.array []) ∧
      Napi.Object.Get obj tm.name = some (.array []) := by
  have hN1 : (atoi len.value).toNat = 0 := Int.toNat_eq_zero.mpr hN
  have hret := JSObject_FromMap_array_mode h t a len tm hArray hLen hType
    (by rw [hN1]; exact fun i hi => absurd hi (Nat.not_lt_zero i))
  rw [hN1] at hret
  simp only [List.range_zero, List.map_nil, dropTrailingHoles, List.rdropWhile_nil] at hret
  refine ⟨by rw [hret]; rfl, _, hret, ?_, ?_⟩
  · rw [Get_passThrough_value]
    by_cases hT : bytes "value" = tm.name
    · rw [← hT, Get_Set_same]
    · rw [Get_Set_other _ _ _ _ hT, Get_Set_same]
  · rw [Get_passThrough_type, Get_Set_same]

/-- Witness for C7: the chain with `length` "abc". -/
theorem array_mode_length_read_as_zero_witness :
    (JSObject_FromMap exampleHelpers badLengthInput).isFailure = false ∧
    ∃ obj, JSObject_FromMap exampleHelpers badLengthInput = .returned obj ∧
      Napi.Object.Get obj (bytes "value") = some (.array []) ∧
      Napi.Object.Get obj (node "dataType" "string").name = some (.array []) :=
  array_mode_length_read_as_zero exampleHelpers badLengthInput (node "isArray" "true")
    (node "length" "abc") (node "dataType" "string") (by rfl) (by rfl) (by decide) (by rfl)

/-- C8. When `isArray` is present and the type resolver finds nothing,
`JSObject_FromMap` dereferences a null pointer (that of `length` when it is absent,
that of the type node otherwise); it neither fails nor returns an object. -/
theorem unresolved_type_is_dereferenced (h : Helpers) (t : List map) (a : map)
    (hArray : getMap t (bytes "isArray") = some a) (hType : h.getMapType t = none) :
    JSObject_FromMap h t = .nullDeref := by
  simp only [JSObject_FromMap, hArray, hType]
  cases getMap t (bytes "length") <;> rfl

/-- Witness for C8: an array group with `length` and `value` but no type node. -/
theorem unresolved_type_is_dereferenced_witness :
    JSObject_FromMap exampleHelpers untypedInput = .nullDeref ∧
    (JSObject_FromMap exampleHelpers untypedInput).isFailure = false := by
  have h1 := unresolved_type_is_dereferenced exampleHelpers untypedInput
    (node "isArray" "true") (by rfl) (by rfl)
  exact ⟨h1, by rw [h1]; rfl⟩

/-- C1. On the forest with the single group `S = {value: "world"}` the object returned by
`JSObject_FromMaps` has no property `S`, although the group itself converts to
`{value: "world"}`. -/
theorem forest_result_lacks_the_group :
    JSObject_FromMap exampleHelpers [node "value" "world"] =
      .returned [(bytes "value", .str (bytes "world"))] ∧
    ∃ obj, JSObject_FromMaps exampleHelpers forestS = .returned obj ∧
      Napi.Object.Get obj (bytes "S") = none ∧ Napi.Object.keys obj = [] :=
  ⟨rfl, _, rfl, rfl, rfl⟩

/-- C10. The value returned by `zoo_nodejs_support` when the script throws while it is
loaded is 2, not -1, and it is 1 when the environment cannot be set up; and whatever
the values of `SERVICE_SUCCEEDED` and `SERVICE_FAILED`, some outcome of the engine's
calls makes the function return a value that is none of the two and not -1. This
holds for both readings of lines 89-91. -/
theorem bridge_return_value_outside_contract (memberStore : Bool) (p : Process)
    (main_conf inputs outputs : maps) (request : List map) (s : service) :
    (∀ c, (zoo_nodejs_support memberStore ⟨0, true, false, c⟩ p main_conf request s inputs
        outputs).1 = 2) ∧
    (∀ l c, (zoo_nodejs_support memberStore ⟨0, false, l, c⟩ p main_conf request s inputs
        outputs).1 = 1) ∧
    (∀ SERVICE_SUCCEEDED SERVICE_FAILED : Int, ∃ e : EngineRun,
      (zoo_nodejs_support memberStore e ⟨false, 0⟩ main_conf request s inputs outputs).1 ≠
        SERVICE_SUCCEEDED ∧
      (zoo_nodejs_support memberStore e ⟨false, 0⟩ main_conf request s inputs outputs).1 ≠
        SERVICE_FAILED ∧
      (zoo_nodejs_support memberStore e ⟨false, 0⟩ main_conf request s inputs outputs).1 ≠
        -1) := by
  refine ⟨?_, ?_, ?_⟩
  · intro c
    cases hp : p.platform <;> simp [zoo_nodejs_support, NodeJSInit, JSLoadScripts, hp]
  · intro l c
    cases hp : p.platform <;> simp [zoo_nodejs_support, NodeJSInit, JSLoadScripts, hp]
  · intro S F
    have key : ∀ k : Int, k ≠ 0 →
        (zoo_nodejs_support memberStore ⟨k, true, true, none⟩ ⟨false, 0⟩ main_conf request s
          inputs outputs).1 = k := by
      intro k hk
      simp [zoo_nodejs_support, NodeJSInit, hk]
    by_cases h1 : S ≠ 1 ∧ F ≠ 1
    · exact ⟨⟨1, true, true, none⟩, by rw [key 1 (by decide)]; omega,
        by rw [key 1 (by decide)]; omega, by rw [key 1 (by decide)]; omega⟩
    · by_cases h2 : S ≠ 2 ∧ F ≠ 2
      · exact ⟨⟨2, true, true, none⟩, by rw [key 2 (by decide)]; omega,
          by rw [key 2 (by decide)]; omega, by rw [key 2 (by decide)]; omega⟩
      · exact ⟨⟨3, true, true, none⟩, by rw [key 3 (by decide)]; omega,
          by rw [key 3 (by decide)]; omega, by rw [key 3 (by decide)]; omega⟩

/-- The caller's `outputs` after a call are the ones before it. -/
theorem zoo_nodejs_support_outputs (memberStore : Bool) (e : EngineRun) (p : Process)
    (main_conf : maps) (request : List map) (s : service) (inputs outputs : maps) :
    (zoo_nodejs_support memberStore e p main_conf request s inputs outputs).2.2 = outputs := by
  by_cases hp : p.platform = false <;> by_cases hr : (NodeJSInit e p).1 ≠ 0 <;>
    simp [zoo_nodejs_support, hp, hr]

/-- The value returned by a call, from the process state and the engine alone. -/
theorem zoo_nodejs_support_code (memberStore : Bool) (e : EngineRun) (p : Process)
    (main_conf : maps) (request : List map) (s : service) (inputs outputs : maps) :
    (zoo_nodejs_support memberStore e p main_conf request s inputs outputs).1 =
      if p.platform = false ∧ e.initCode ≠ 0 then e.initCode else JSLoadScripts memberStore e := by
  by_cases hp : p.platform = false <;> by_cases hr : e.initCode = 0 <;>
    simp [zoo_nodejs_support, NodeJSInit, hp, hr]

/-- The process state after a call, from the process state and the engine alone:
`NodeJSInit` runs exactly when the platform is null, and the platform is set exactly
when it was set or the initialisation returned 0. -/
theorem zoo_nodejs_support_state (memberStore : Bool) (e : EngineRun) (p : Process)
    (main_conf : maps) (request : List map) (s : service) (inputs outputs : maps) :
    (zoo_nodejs_support memberStore e p main_conf request s inputs outputs).2.1 =
      if p.platform = false then
        (⟨decide (e.initCode = 0), p.initCalls + 1⟩ : Process)
      else p := by
  by_cases hp : p.platform = false <;> by_cases hr : e.initCode = 0 <;>
    simp [zoo_nodejs_support, NodeJSInit, hp, hr]

/-- C11. `zoo_nodejs_support` reads none of its five arguments and writes none: the
caller's `outputs` forest after the call is the one before the call, and the returned
value and the process state are the same for all arguments. In particular, with the
inputs `S.value = "world"` the outputs keep `result.value = ""` and do not become
`"Hello world from the JS World !"`. -/
theorem bridge_ignores_its_arguments (memberStore : Bool) (e : EngineRun) (p : Process)
    (main_conf : maps) (request : List map) (s : service) (inputs outputs : maps) :
    (zoo_nodejs_support memberStore e p main_conf request s inputs outputs).2.2 = outputs ∧
    (∀ main_conf2 request2 s2 inputs2 outputs2,
      (zoo_nodejs_support memberStore e p main_conf2 request2 s2 inputs2 outputs2).1 =
        (zoo_nodejs_support memberStore e p main_conf request s inputs outputs).1 ∧
      (zoo_nodejs_support memberStore e p main_conf2 request2 s2 inputs2 outputs2).2.1 =
        (zoo_nodejs_support memberStore e p main_conf request s inputs outputs).2.1) ∧
    (zoo_nodejs_support memberStore e p main_conf request ⟨bytes "hello_nodejs"⟩ helloInputs
      helloOutputs).2.2 = helloOutputs ∧
    helloOutputs ≠ helloExpected := by
  refine ⟨zoo_nodejs_support_outputs _ _ _ _ _ _ _ _, ?_,
    zoo_nodejs_support_outputs _ _ _ _ _ _ _ _, ?_⟩
  · intro main_conf2 request2 s2 inputs2 outputs2
    rw [zoo_nodejs_support_code memberStore e p main_conf2 request2 s2 inputs2 outputs2,
      zoo_nodejs_support_code memberStore e p main_conf request s inputs outputs,
      zoo_nodejs_support_state memberStore e p main_conf2 request2 s2 inputs2 outputs2,
      zoo_nodejs_support_state memberStore e p main_conf request s inputs outputs]
    exact ⟨rfl, rfl⟩
  · intro heq
    have h1 : [node "value" ""] = [node "value" "Hello world from the JS World !"] := by
      unfold helloOutputs helloExpected at heq
      injection heq
    have h2 : (node "value" "").value = (node "value" "Hello world from the JS World !").value := by
      rw [List.head_eq_of_cons_eq h1]
    exact absurd h2 (by decide)

/-! ## Initialisation of the engine -/

/-- C15, counterexample. In a process whose first call sees the initialisation fail with
exit code 1, the second call executes `NodeJSInit` again: after two such calls the
initialisation has been called twice. -/
theorem failed_initialisation_is_repeated :
    (runCalls true [failingCall 1, failingCall 1] ⟨false, 0⟩).initCalls = 2 ∧
    (runCalls false [failingCall 1, failingCall 1] ⟨false, 0⟩).initCalls = 2 := by
  decide

theorem runCalls_initialised (memberStore : Bool) (cs : List Call) (p : Process)
    (hp : p.platform = true) : runCalls memberStore cs p = p := by
  induction cs with
  | nil => rfl
  | cons c cs ih =>
    simp only [runCalls]
    rw [zoo_nodejs_support_state]
    simp [hp, ih]

/-- C15, amended. `NodeJSInit` is executed by every call made while the platform is not
yet set, and by no other call: in a fresh process it is executed once per call up to
and including the first call in which it returns 0, so a successful initialisation
happens at most once, and a failed one is repeated by the next call; once the
platform is set, no later call executes it. -/
theorem initialisation_runs_until_it_succeeds (memberStore : Bool) (cs : List Call)
    (p : Process) :
    (p.platform = true → runCalls memberStore cs p = p) ∧
    (p.platform = false →
      (runCalls memberStore cs p).initCalls = p.initCalls + callsUntilInitialised cs ∧
      ((runCalls memberStore cs p).platform = true ↔ ∃ c ∈ cs, c.engine.initCode = 0)) := by
  refine ⟨runCalls_initialised memberStore cs p, ?_⟩
  induction cs generalizing p with
  | nil => intro hp; simp [runCalls, callsUntilInitialised, hp]
  | cons c cs ih =>
    intro hp
    simp only [runCalls]
    rw [zoo_nodejs_support_state]
    simp only [hp, if_true]
    by_cases hc : c.engine.initCode = 0
    · rw [runCalls_initialised memberStore cs _ (by simp [hc])]
      simp [callsUntilInitialised, hc]
    · have hd : decide (c.engine.initCode = 0) = false := by simp [hc]
      rw [hd]
      have h1 := ih ⟨false, p.initCalls + 1⟩ rfl
      simp only [callsUntilInitialised, hc, if_false]
      refine ⟨by rw [h1.1]; simp only []; omega, ?_⟩
      rw [h1.2]
      simp [hc]

/-- Witness for C15: three calls, the initialisation failing in the first and
succeeding in the second; it is executed twice, not three times. -/
theorem initialisation_runs_until_it_succeeds_witness :
    (runCalls true [failingCall 1, failingCall 0, failingCall 0] ⟨false, 0⟩).initCalls = 2 ∧
    (runCalls true [failingCall 1, failingCall 0, failingCall 0] ⟨false, 0⟩).platform = true := by
  have h1 := (initialisation_runs_until_it_succeeds true
    [failingCall 1, failingCall 0, failingCall 0] ⟨false, 0⟩).2 rfl
  exact ⟨h1.1.trans (by decide), h1.2.mpr ⟨failingCall 0, by simp, by decide⟩⟩

/-! ## Mode selection -/

theorem getMap_eq_none_iff (t : List map) (key : CString) :
    getMap t key = none ↔ ¬ ∃ m ∈ t, m.name.map tolower = key.map tolower := by
  unfold getMap
  rw [List.find?_eq_none]
  simp

theorem scalarValue_is_str (b : Option map) (m : map) (v : JSValue)
    (hv : scalarValue b m = .returned v) : ∃ s, v = .str s := by
  unfold scalarValue at hv
  cases b with
  | none =>
    simp only [Napi.String.New] at hv
    injection hv with e
    exact ⟨_, e.symm⟩
  | some sz =>
    simp only at hv
    split at hv
    · unfold Napi.String.NewLen at hv
      split at hv
      · injection hv with e
        exact ⟨_, e.symm⟩
      · split at hv
        · cases hv
        · injection hv with e
          exact ⟨_, e.symm⟩
    · simp only [Napi.String.New] at hv
      injection hv with e
      exact ⟨_, e.symm⟩

theorem Get_Set_cases (o : JSObject) (k k1 : CString) (v v1 : JSValue)
    (hg : Napi.Object.Get (Napi.Object.Set o k v) k1 = some v1) :
    v1 = v ∨ Napi.Object.Get o k1 = some v1 := by
  by_cases hk : k1 = k
  · subst hk
    rw [Get_Set_same] at hg
    exact Or.inl (Option.some.inj hg).symm
  · rw [Get_Set_other _ _ _ _ hk] at hg
    exact Or.inr hg

/-- Every property set by the scalar loop is a string. -/
theorem scalarLoop_all_str (b : Option map) (t : List map) (res obj : JSObject)
    (hres : ∀ k v, Napi.Object.Get res k = some v → ∃ s, v = .str s)
    (hret : scalarLoop b t res = .returned obj) :
    ∀ k v, Napi.Object.Get obj k = some v → ∃ s, v = .str s := by
  induction t generalizing res with
  | nil =>
    simp only [scalarLoop] at hret
    injection hret with e
    rw [← e]
    exact hres
  | cons m rest ih =>
    simp only [scalarLoop] at hret
    cases hv : scalarValue b m with
    | returned jsstr =>
      rw [hv] at hret
      simp only [Outcome.bind] at hret
      apply ih _ _ hret
      intro k v hg
      rcases Get_Set_cases _ _ _ _ _ hg with e | hg1
      · rw [e]
        exact scalarValue_is_str b m jsstr hv
      · exact hres k v hg1
    | threw => rw [hv] at hret; cases hret
    | nullDeref => rw [hv] at hret; cases hret

/-- An object returned by the array rules has an array under "value". -/
theorem arrayRules_value_is_array (h : Helpers) (t : List map) (obj : JSObject)
    (hret : arrayRules h t = .returned obj) :
    ∃ vs, Napi.Object.Get obj (bytes "value") = some (.array vs) := by
  unfold arrayRules at hret
  cases hl : getMap t (bytes "length") with
  | none => rw [hl] at hret; cases hret
  | some len =>
    rw [hl] at hret
    cases ht : h.getMapType t with
    | none => rw [ht] at hret; cases hret
    | some tm =>
      rw [ht] at hret
      simp only at hret
      cases ha : arrayLoop h t tm.name (List.range (atoi len.value).toNat)
          (Napi.Array.New, Napi.Array.New) with
      | returned acc =>
        rw [ha] at hret
        simp only [Outcome.bind] at hret
        injection hret with e
        rw [← e, Get_passThrough_value]
        by_cases hT : bytes "value" = tm.name
        · rw [← hT, Get_Set_same]
          exact ⟨_, rfl⟩
        · rw [Get_Set_other _ _ _ _ hT, Get_Set_same]
          exact ⟨_, rfl⟩
      | threw => rw [ha] at hret; cases hret
      | nullDeref => rw [ha] at hret; cases hret

/-- C12. Mode selection: `JSObject_FromMap` applies the array-mode rules when the chain
holds a node whose name is `isArray` with the case ignored, whatever the value of that
node, and the scalar-mode rules otherwise; the two sets of rules never give the same
object, the scalar rules setting strings only and the array rules setting an array
under "value". -/
theorem mode_is_selected_by_isArray (h : Helpers) (t : List map) :
    ((∃ m ∈ t, m.name.map tolower = (bytes "isArray").map tolower) →
      JSObject_FromMap h t = arrayRules h t) ∧
    ((¬ ∃ m ∈ t, m.name.map tolower = (bytes "isArray").map tolower) →
      JSObject_FromMap h t = scalarRules t) ∧
    (∀ o1 o2, scalarRules t = .returned o1 → arrayRules h t = .returned o2 → o1 ≠ o2) := by
  refine ⟨?_, ?_, ?_⟩
  · intro hex
    cases ha : getMap t (bytes "isArray") with
    | none => exact absurd hex ((getMap_eq_none_iff t _).mp ha)
    | some a =>
      simp only [JSObject_FromMap, ha, arrayRules]
  · intro hex
    have ha := (getMap_eq_none_iff t (bytes "isArray")).mpr hex
    simp only [JSObject_FromMap, ha, scalarRules]
  · intro o1 o2 h1 h2 heq
    obtain ⟨vs, hvs⟩ := arrayRules_value_is_array h t o2 h2
    rw [← heq] at hvs
    obtain ⟨s, hs⟩ := scalarLoop_all_str _ t _ o1
      (fun k v hg => by simp [Napi.Object.New, Napi.Object.Get] at hg) h1 _ _ hvs
    cases hs

/-- Witness for C12: the node `ISARRAY` with the value "false" selects the array mode,
and a chain without such a node is converted by the scalar rules. -/
theorem mode_is_selected_by_isArray_witness :
    JSObject_FromMap exampleHelpers falseArrayInput = arrayRules exampleHelpers falseArrayInput ∧
    (∃ obj, JSObject_FromMap exampleHelpers falseArrayInput = .returned obj ∧
      Napi.Object.Get obj (bytes "value") = some (.array [some (.str (bytes "x"))])) ∧
    JSObject_FromMap exampleHelpers [node "a" "1"] = scalarRules [node "a" "1"] :=
  ⟨(mode_is_selected_by_isArray exampleHelpers falseArrayInput).1
      ⟨node "ISARRAY" "false", by simp [falseArrayInput], by decide⟩,
    ⟨_, rfl, rfl⟩,
    (mode_is_selected_by_isArray exampleHelpers [node "a" "1"]).2.1 (by decide)⟩

/-! ## The forest -/

/-- One turn of the loop of `JSObject_FromMaps` builds the object of the group and goes
on with the unchanged result. -/
theorem JSObject_FromMaps_loop_cons (h : Helpers) (name : CString) (content : List map)
    (child next : maps) (res : JSObject) :
    JSObject_FromMaps.loop h (.cons name content child next) res =
      (groupObject h name content child).bind fun _ => JSObject_FromMaps.loop h next res := by
  rw [JSObject_FromMaps.loop]
  simp only [groupObject]
  cases JSObject_FromMap h content with
  | returned obj =>
    simp only [Outcome.bind]
    cases child with
    | nil => simp only [attachChild, Outcome.bind]
    | cons n c ch nx =>
      simp only [attachChild, JSObject_FromMaps]
      cases JSObject_FromMaps.loop h (.cons n c ch nx) Napi.Object.New <;>
        simp only [Outcome.bind]
  | threw => simp only [Outcome.bind]
  | nullDeref => simp only [Outcome.bind]

/-- The loop returns the result object it was given, or does not return. -/
theorem JSObject_FromMaps_loop_returned (h : Helpers) (t : maps) (res obj : JSObject)
    (hret : JSObject_FromMaps.loop h t res = .returned obj) : obj = res := by
  induction t generalizing res obj with
  | nil =>
    simp only [JSObject_FromMaps.loop] at hret
    injection hret with e
    exact e.symm
  | cons name content child next _ ihn =>
    rw [JSObject_FromMaps_loop_cons] at hret
    cases hg : groupObject h name content child with
    | returned o =>
      rw [hg] at hret
      exact ihn res obj hret
    | threw => rw [hg] at hret; cases hret
    | nullDeref => rw [hg] at hret; cases hret

/-- The loop returns exactly when every group, at every depth, is converted. -/
theorem JSObject_FromMaps_loop_returns_iff (h : Helpers) (t : maps) (res : JSObject) :
    JSObject_FromMaps.loop h t res = .returned res ↔ allConvert h t := by
  induction t generalizing res with
  | nil => simp [JSObject_FromMaps.loop, allConvert]
  | cons name content child next ihc ihn =>
    rw [JSObject_FromMaps_loop_cons]
    simp only [allConvert, groupObject]
    cases hc : JSObject_FromMap h content with
    | returned obj =>
      simp only [Outcome.bind]
      cases child with
      | nil =>
        simp only [attachChild, Outcome.bind, allConvert, true_and]
        rw [ihn res]
        exact ⟨fun hx => ⟨⟨obj, rfl⟩, hx⟩, fun hx => hx.2⟩
      | cons n c ch nx =>
        simp only [attachChild, JSObject_FromMaps]
        cases hch : JSObject_FromMaps.loop h (.cons n c ch nx) Napi.Object.New with
        | returned co =>
          have e := JSObject_FromMaps_loop_returned h _ _ _ hch
          rw [e] at hch
          simp only [Outcome.bind]
          rw [ihn res]
          exact ⟨fun hx => ⟨⟨obj, rfl⟩, (ihc Napi.Object.New).mp hch, hx⟩, fun hx => hx.2.2⟩
        | threw =>
          simp only [Outcome.bind]
          constructor
          · intro hx; cases hx
          · intro hx
            have := (ihc Napi.Object.New).mpr hx.2.1
            rw [hch] at this
            cases this
        | nullDeref =>
          simp only [Outcome.bind]
          constructor
          · intro hx; cases hx
          · intro hx
            have := (ihc Napi.Object.New).mpr hx.2.1
            rw [hch] at this
            cases this
    | threw =>
      simp only [Outcome.bind]
      constructor
      · intro hx; cases hx
      · rintro ⟨⟨o, ho⟩, _⟩; cases ho
    | nullDeref =>
      simp only [Outcome.bind]
      constructor
      · intro hx; cases hx
      · rintro ⟨⟨o, ho⟩, _⟩; cases ho

/-- C13. The enclosing result receives nothing: whatever the forest, an object returned by
`JSObject_FromMaps` has no property at all, and the function returns (that empty
object) exactly when the content of every group, at every depth, is converted. As a
consequence the object set as `child` on the object of a group is always the empty
object, and it is the `child` property of that object after line 117 unless the group
is itself named "child". -/
theorem forest_result_is_empty (h : Helpers) (t : maps) :
    (∀ obj, JSObject_FromMaps h t = .returned obj →
      obj = Napi.Object.New ∧ Napi.Object.keys obj = []) ∧
    (JSObject_FromMaps h t = .returned Napi.Object.New ↔ allConvert h t) ∧
    (∀ obj obj1 n c ch nx, attachChild h obj (.cons n c ch nx) = .returned obj1 →
      Napi.Object.Get obj1 (bytes "child") = some (.object [])) ∧
    (∀ name content n c ch nx obj2, name ≠ bytes "child" →
      groupObject h name content (.cons n c ch nx) = .returned obj2 →
      Napi.Object.Get obj2 (bytes "child") = some (.object [])) := by
  have hattach : ∀ obj obj1 n c ch nx, attachChild h obj (.cons n c ch nx) = .returned obj1 →
      Napi.Object.Get obj1 (bytes "child") = some (.object []) := by
    intro obj obj1 n c ch nx hret
    simp only [attachChild, JSObject_FromMaps] at hret
    cases hch : JSObject_FromMaps.loop h (.cons n c ch nx) Napi.Object.New with
    | returned co =>
      have e := JSObject_FromMaps_loop_returned h _ _ _ hch
      rw [hch] at hret
      simp only [Outcome.bind] at hret
      injection hret with e1
      rw [← e1, Get_Set_same, e]
      rfl
    | threw => rw [hch] at hret; cases hret
    | nullDeref => rw [hch] at hret; cases hret
  refine ⟨?_, JSObject_FromMaps_loop_returns_iff h t Napi.Object.New, hattach, ?_⟩
  · intro obj hret
    have e := JSObject_FromMaps_loop_returned h t _ _ hret
    rw [e]
    exact ⟨rfl, rfl⟩
  · intro name content n c ch nx obj2 hname hret
    simp only [groupObject] at hret
    cases hc : JSObject_FromMap h content with
    | returned obj =>
      rw [hc] at hret
      simp only [Outcome.bind] at hret
      cases ha : attachChild h obj (.cons n c ch nx) with
      | returned obj1 =>
        rw [ha] at hret
        simp only [Outcome.bind] at hret
        injection hret with e
        rw [← e, Get_Set_other _ _ _ _ (Ne.symm hname)]
        exact hattach obj obj1 n c ch nx ha
      | threw => rw [ha] at hret; cases hret
      | nullDeref => rw [ha] at hret; cases hret
    | threw => rw [hc] at hret; cases hret
    | nullDeref => rw [hc] at hret; cases hret

/-- Witness for C13: a nested forest with a sibling is converted to the empty object,
and the object of the group `S` carries an empty `child`. -/
theorem forest_result_is_empty_witness :
    JSObject_FromMaps exampleHelpers nestedForest = .returned Napi.Object.New ∧
    (∃ obj2, groupObject exampleHelpers (bytes "S") [node "value" "x"]
        (.cons (bytes "T") [node "value" "y"] .nil .nil) = .returned obj2 ∧
      Napi.Object.Get obj2 (bytes "child") = some (.object []) ∧
      Napi.Object.Get obj2 (bytes "S") = some .self ∧
      Napi.Object.Get obj2 (bytes "value") = some (.str (bytes "x"))) := by
  have hw := forest_result_is_empty exampleHelpers nestedForest
  refine ⟨hw.2.1.mpr ⟨⟨_, rfl⟩, ⟨⟨_, rfl⟩, trivial, trivial⟩, ⟨_, rfl⟩, trivial, trivial⟩,
    _, rfl, ?_, rfl, rfl⟩
  exact hw.2.2.2 (bytes "S") [node "value" "x"] (bytes "T") [node "value" "y"] .nil .nil _
    (by decide) rfl

/-! ## The type resolver on the scalar path -/

/-- C16. The arrays are never overwritten: when `isArray` is present, the type node is
resolved with a name `T` other than "value" and `JSObject_FromMap` returns an object,
the `value` property and the `T` property of that object are the two arrays the index
loop has built; no node passed through afterwards replaces either of them. -/
theorem arrays_survive_pass_through (h : Helpers) (t : List map) (a tm : map) (obj : JSObject)
    (hArray : getMap t (bytes "isArray") = some a)
    (hType : h.getMapType t = some tm) (hT : tm.name ≠ bytes "value")
    (hret : JSObject_FromMap h t = .returned obj) :
    ∃ len acc, getMap t (bytes "length") = some len ∧
      arrayLoop h t tm.name (List.range (atoi len.value).toNat)
        (Napi.Array.New, Napi.Array.New) = .returned acc ∧
      Napi.Object.Get obj (bytes "value") = some (.array acc.1) ∧
      Napi.Object.Get obj tm.name = some (.array acc.2) := by
  simp only [JSObject_FromMap, hArray, hType] at hret
  cases hl : getMap t (bytes "length") with
  | none => rw [hl] at hret; cases hret
  | some len =>
    rw [hl] at hret
    simp only at hret
    cases ha : arrayLoop h t tm.name (List.range (atoi len.value).toNat)
        (Napi.Array.New, Napi.Array.New) with
    | returned acc =>
      rw [ha] at hret
      simp only [Outcome.bind] at hret
      injection hret with e
      refine ⟨len, acc, rfl, ha, ?_, ?_⟩
      · rw [← e, Get_passThrough_value, Get_Set_other _ _ _ _ (Ne.symm hT), Get_Set_same]
      · rw [← e, Get_passThrough_type, Get_Set_same]
    | threw => rw [ha] at hret; cases hret
    | nullDeref => rw [ha] at hret; cases hret

/-- Witness for C16: the nodes `VALUE` and `DATATYPE` leave the two arrays in place. -/
theorem arrays_survive_pass_through_witness :
    JSObject_FromMap exampleHelpers shoutingInput = .returned shoutingOutput ∧
    ∃ len acc, getMap shoutingInput (bytes "length") = some len ∧
      arrayLoop exampleHelpers shoutingInput (node "dataType" "string").name
        (List.range (atoi len.value).toNat) (Napi.Array.New, Napi.Array.New) = .returned acc ∧
      Napi.Object.Get shoutingOutput (bytes "value") = some (.array acc.1) ∧
      Napi.Object.Get shoutingOutput (node "dataType" "string").name = some (.array acc.2) :=
  ⟨rfl, arrays_survive_pass_through exampleHelpers shoutingInput (node "isArray" "true")
    (node "dataType" "string") shoutingOutput (by rfl) (by rfl) (by decide) (by rfl)⟩

end Zoo
